import Mathlib

/-!
Verification development for the Habit Tracking & Streak Analytics Engine of
the ai-wellness-habit-tracker repository.

The repository ships the mobile client (TypeScript) together with design
documents; the backend streak engine itself is declared in
src/docs/02-FEATURE_SPECIFICATION.md (class StreakCalculator, class
ProgressAnalyzer, all bodies empty) and configured in the environment file
(STREAK_GRACE_PERIOD_HOURS=6), but its implementation is not part of the
source tree.  Definitions below that embed that missing engine carry a doc
comment starting with "Modelled from the spec:".  Definitions for the Redux
tracking slice (src/frontend/src/store/slices/trackingSlice.ts) are embedded
directly from the TypeScript source.

Time is measured in minutes since an arbitrary epoch (integers), a timezone
is an offset in minutes, and a daily period is identified by its local day
index.  Division and remainder on Int are euclidean, which for the positive
divisor 1440 coincides with floor division, matching timezone-aware local
day arithmetic.
-/

namespace Wellness

/-- Modelled from the spec: a HabitLog event as consumed by the Streak
Engine, reduced to the fields the engine reads: the instant the check-in
occurred (minutes since epoch, UTC) and the completion percentage in
[0,100].  The spec leaves open whether partial completions count toward
satisfaction of count-based habits; this model documents the explicit
default that only logs with completion_percentage >= 100 count. -/
structure SLog where
  occurred_at : Int
  completion_percentage : Int
deriving DecidableEq

/-- Modelled from the spec: the cached streak snapshot
{current_streak, longest_streak} stored on a UserHabit. -/
structure StreakResult where
  current_streak : Nat
  longest_streak : Nat
deriving DecidableEq

/-- Modelled from the spec: resolve the instant t (UTC minutes) to the local
day index that the check-in is attributed to, for a daily habit with a
grace window of gh hours after midnight.  A check-in whose local
minute-of-day falls inside the grace window is attributed to the previous
day.  Grace is applied only here, never to satisfaction evaluation. -/
def periodOf (gh : Nat) (tz : Int) (t : Int) : Int :=
  let loc := t + tz
  if loc % 1440 < (gh : Int) * 60 then loc / 1440 - 1 else loc / 1440

/-- Modelled from the spec: whether a log contributes a point toward the
target count of its period (explicit default: full completions only). -/
def logCounts (l : SLog) : Bool := 100 ≤ l.completion_percentage

/-- Modelled from the spec: number of counting logs attributed to period p. -/
def logsInPeriod (gh : Nat) (tz : Int) (logs : List SLog) (p : Int) : Nat :=
  (logs.filter (fun l => logCounts l && (periodOf gh tz l.occurred_at == p))).length

/-- Modelled from the spec: a period is satisfied when its counting logs
reach the target count of the habit. -/
def periodSatisfied (gh : Nat) (tz : Int) (count : Nat) (logs : List SLog) (p : Int) : Bool :=
  count ≤ logsInPeriod gh tz logs p

/-- The multiset of periods the counting logs resolve to; satisfaction is a
function of this data alone, which witnesses that the grace window enters
satisfaction evaluation only through period resolution. -/
def resolvedPeriods (gh : Nat) (tz : Int) (logs : List SLog) : List Int :=
  (logs.filter logCounts).map (fun l => periodOf gh tz l.occurred_at)

/-- Satisfaction recomputed from resolved periods only. -/
def satisfiedFromPeriods (count : Nat) (ps : List Int) (p : Int) : Bool :=
  count ≤ (ps.filter (fun q => q == p)).length

/-- Modelled from the spec: earliest period any log resolves to (none when
the history is empty). -/
def firstPeriod (gh : Nat) (tz : Int) : List SLog → Option Int
  | [] => none
  | l :: ls =>
      some (ls.foldl (fun a x => min a (periodOf gh tz x.occurred_at))
        (periodOf gh tz l.occurred_at))

/-- Length of the maximal run of true values at the end of the list. -/
def trailingRun (bs : List Bool) : Nat :=
  (bs.reverse.takeWhile (fun b => b)).length

/-- Length of the maximal run of consecutive true values anywhere in the
list (left fold carrying best-so-far and current run). -/
def longestRun (bs : List Bool) : Nat :=
  (bs.foldl (fun (acc : Nat × Nat) b =>
    if b then (max acc.1 (acc.2 + 1), acc.2 + 1) else (acc.1, 0)) (0, 0)).1

/-- Modelled from the spec: the per-period satisfaction sequence for the
periods from first to cur inclusive (cur being the period containing
"now", labelled pending). -/
def satSeq (gh : Nat) (tz : Int) (count : Nat) (logs : List SLog)
    (first cur : Int) : List Bool :=
  (List.range (cur - first + 1).toNat).map
    (fun i => periodSatisfied gh tz count logs (first + (i : Int)))

/-- Modelled from the spec: the Streak Engine.  Pure function of (log
history, target count, timezone, now): partitions history into periods,
labels the period containing now as pending, and returns current_streak
(maximal run of satisfied periods ending at the most recent non-pending
period, extended by one when the pending period is already satisfied) and
longest_streak (maximal run of consecutive satisfied periods anywhere,
the pending period included when satisfied). -/
def computeStreaks (gh : Nat) (tz : Int) (count : Nat) (logs : List SLog)
    (now : Int) : StreakResult :=
  match firstPeriod gh tz logs with
  | none => ⟨0, 0⟩
  | some first =>
      let cur := periodOf gh tz now
      let sats := satSeq gh tz count logs first cur
      let current :=
        if sats.getLastD false then trailingRun sats else trailingRun sats.dropLast
      ⟨current, longestRun sats⟩

/-- The full observable output of the Streak Engine: the streak numbers
together with the per-period satisfaction sequence. -/
def streakOutputs (gh : Nat) (tz : Int) (count : Nat) (logs : List SLog)
    (now : Int) : StreakResult × List Bool :=
  (computeStreaks gh tz count logs now,
   match firstPeriod gh tz logs with
   | none => []
   | some first => satSeq gh tz count logs first (periodOf gh tz now))

/-! ### Check-in Ingestion (modelled from the spec, section 4.1) -/

/-- Modelled from the spec: the per-habit configuration the ingestion and
streak paths read from a UserHabit: target count per period and the
active flag (the schema status field collapsed to active or not). -/
structure Habit where
  target_count : Nat
  is_active : Bool
deriving DecidableEq

/-- Modelled from the spec: a submit_checkin request scoped to one habit
(the user_habit_id lookup is represented by the Option Habit argument of
submitCheckin). -/
structure CheckinReq where
  occurred_at : Int
  completion_percentage : Int
deriving DecidableEq

/-- Modelled from the spec: the error taxonomy of section 7 restricted to
the errors the check-in path returns directly to the caller. -/
inductive CheckinError where
  | validationError
  | notFoundError
  | stateError
deriving DecidableEq

/-- Modelled from the spec: the clock-skew tolerance of about 5 minutes on
future occurred_at values. -/
def clockSkewTolerance : Int := 5

/-- Modelled from the spec: the idempotent upsert for count=1 habits,
keyed by the period the log resolves to: replace the first log of that
period when one exists, append otherwise. -/
def upsertByPeriod (gh : Nat) (tz : Int) (p : Int) (newLog : SLog) :
    List SLog → List SLog
  | [] => [newLog]
  | x :: xs =>
      if periodOf gh tz x.occurred_at == p then newLog :: xs
      else x :: upsertByPeriod gh tz p newLog xs

/-- Modelled from the spec: the engine-side state of one UserHabit: the raw
log history, the cached snapshot, and the instant of the last successful
write (the time the snapshot was recomputed at). -/
structure EngineState where
  logs : List SLog
  snapshot : StreakResult
  asOf : Int
deriving DecidableEq

/-- Modelled from the spec: the initial state of a freshly created
UserHabit: no logs, zero streaks. -/
def initState : EngineState := ⟨[], ⟨0, 0⟩, 0⟩

/-- Modelled from the spec: submit_checkin.  Validates in the order
lookup, active status, completion percentage in [0,100], occurred_at not
beyond now plus the clock-skew tolerance; on success persists the log
(idempotent upsert for count=1, append otherwise) and synchronously
recomputes the snapshot over the complete history. -/
def submitCheckin (hab : Option Habit) (gh : Nat) (tz : Int)
    (st : EngineState) (now : Int) (req : CheckinReq) :
    Except CheckinError EngineState :=
  match hab with
  | none => .error .notFoundError
  | some h =>
      if !h.is_active then .error .stateError
      else if req.completion_percentage < 0 ∨ 100 < req.completion_percentage then
        .error .validationError
      else if now + clockSkewTolerance < req.occurred_at then
        .error .validationError
      else
        let newLog : SLog := ⟨req.occurred_at, req.completion_percentage⟩
        let p := periodOf gh tz req.occurred_at
        let logs' :=
          if h.target_count = 1 then upsertByPeriod gh tz p newLog st.logs
          else st.logs ++ [newLog]
        .ok ⟨logs', computeStreaks gh tz h.target_count logs' now, now⟩

/-- Modelled from the spec: the state transition seen by the store: a
failed submit_checkin changes nothing, a successful one installs the new
state. -/
def stepCheckin (hab : Option Habit) (gh : Nat) (tz : Int)
    (st : EngineState) (op : Int × CheckinReq) : EngineState :=
  match submitCheckin hab gh tz st op.1 op.2 with
  | .ok st' => st'
  | .error _ => st

/-- Modelled from the spec: run a sequence of timestamped check-in
submissions against one habit from the initial state. -/
def runCheckins (hab : Option Habit) (gh : Nat) (tz : Int)
    (ops : List (Int × CheckinReq)) : EngineState :=
  ops.foldl (stepCheckin hab gh tz) initState

/-! ### Progress Analytics: risk score (modelled from the spec, 4.3) -/

/-- Clamp a rational to the unit interval. -/
def clamp01 (q : ℚ) : ℚ := max 0 (min 1 q)

/-- Modelled from the spec: fraction of the current period plus its grace
window already elapsed at the instant now, in [0,1].  The window of the
period p runs from local minute p*1440 for 1440 + 60*gh minutes. -/
def graceElapsedFrac (gh : Nat) (tz : Int) (now : Int) : ℚ :=
  let p := periodOf gh tz now
  clamp01 (((now + tz - p * 1440 : Int) : ℚ) / ((1440 + gh * 60 : Nat) : ℚ))

/-- Modelled from the spec: number of satisfied periods among the len
periods starting at lo. -/
def satCountIn (gh : Nat) (tz : Int) (count : Nat) (logs : List SLog)
    (lo : Int) (len : Nat) : Nat :=
  ((List.range len).filter
    (fun i => periodSatisfied gh tz count logs (lo + (i : Int)))).length

/-- Modelled from the spec: recent-trend component of the risk score: how
far the satisfied-period share of the last (up to) 7 elapsed periods sits
below the lifetime share, clamped to [0,1]. -/
def trendDeficit (gh : Nat) (tz : Int) (count : Nat) (logs : List SLog)
    (p : Int) : ℚ :=
  match firstPeriod gh tz logs with
  | none => 0
  | some first =>
      let n := (p - first).toNat
      if n = 0 then 0
      else
        let k := min 7 n
        clamp01 ((satCountIn gh tz count logs first n : ℚ) / (n : ℚ)
          - (satCountIn gh tz count logs (p - (k : Int)) k : ℚ) / (k : ℚ))

/-- Modelled from the spec: predict_streak_risk.  Zero once the current
period is satisfied; otherwise the mean of the elapsed grace-window
fraction, the recent-trend deficit and the still-pending indicator (one),
a heuristic in [0,1] that is non-decreasing while the current period
elapses without a check-in. -/
def riskScore (gh : Nat) (tz : Int) (count : Nat) (logs : List SLog)
    (now : Int) : ℚ :=
  let p := periodOf gh tz now
  if periodSatisfied gh tz count logs p then 0
  else (graceElapsedFrac gh tz now + trendDeficit gh tz count logs p + 1) / 3

/-! ### Achievement Evaluator (modelled from the spec, 4.4) -/

/-- Modelled from the spec: a static achievement criterion: an identifier
and the current-streak threshold that unlocks it. -/
structure Achievement where
  id : String
  streakThreshold : Nat
deriving DecidableEq

/-- Modelled from the spec: attempt to create an AchievementUnlock record;
the uniqueness constraint on (user, achievement) makes the insert a no-op
when the record already exists. -/
def unlockOnce (unlocked : List String) (aid : String) : List String :=
  if aid ∈ unlocked then unlocked else unlocked ++ [aid]

/-- Modelled from the spec: evaluate the static criteria table against the
latest snapshot, inserting an unlock record for every criterion whose
threshold the current streak has crossed. -/
def evaluateAchievements (criteria : List Achievement) (snap : StreakResult)
    (unlocked : List String) : List String :=
  criteria.foldl
    (fun acc a =>
      if a.streakThreshold ≤ snap.current_streak then unlockOnce acc a.id
      else acc) unlocked

/-! ### The Redux tracking slice (embedded from
src/frontend/src/store/slices/trackingSlice.ts) -/

/-- The completion status union type of the frontend HabitLog. -/
inductive CompletionStatus where
  | completed
  | partialDone
  | skipped
deriving DecidableEq

/-- The frontend HabitLog (src/frontend/src/types/index.ts), reduced to the
fields the tracking-slice reducers read. -/
structure FLog where
  id : String
  user_habit_id : String
  completion_status : CompletionStatus
  completion_percentage : Int
deriving DecidableEq

/-- The addTodayLog reducer of trackingSlice.ts: when todayLogs already
holds a log with the same user_habit_id, the first such entry is replaced
by the payload (findIndex + assignment), otherwise the payload is pushed. -/
def addTodayLog (logs : List FLog) (l : FLog) : List FLog :=
  match logs with
  | [] => [l]
  | x :: xs =>
      if x.user_habit_id == l.user_habit_id then l :: xs
      else x :: addTodayLog xs l

/-- The checkInHabit.fulfilled extra reducer of trackingSlice.ts; its
insert logic is textually the same findIndex + replace-or-push as
addTodayLog. -/
def checkInFulfilled (logs : List FLog) (l : FLog) : List FLog :=
  match logs with
  | [] => [l]
  | x :: xs =>
      if x.user_habit_id == l.user_habit_id then l :: xs
      else x :: checkInFulfilled xs l

/-- An action of the tracking slice that inserts a log into todayLogs. -/
inductive TrackInsert where
  | add (l : FLog)
  | fulfilled (l : FLog)
deriving DecidableEq

/-- Apply one inserting action to the todayLogs list. -/
def applyInsert (logs : List FLog) : TrackInsert → List FLog
  | .add l => addTodayLog logs l
  | .fulfilled l => checkInFulfilled logs l

/-- Run a sequence of inserting actions from the initial (empty) todayLogs
of the slice. -/
def runInserts (acts : List TrackInsert) : List FLog :=
  acts.foldl applyInsert []

/-- The list of user_habit_id keys of a todayLogs list; the slice invariant
is that these are pairwise distinct. -/
def habitKeys (logs : List FLog) : List String := logs.map (·.user_habit_id)

/-! ### Scenario D of the spec as concrete data: a daily habit with noon
check-ins on days 0, 1, 3, 4, 5, 6, 7 (day 2 missed, breaking the streak),
"now" at 13:00 of day 7, and a backfilled check-in at noon of day 2 (five
days before the current day). -/

/-- Scenario D log history before the backfill. -/
def scenarioDLogs : List SLog :=
  [⟨0 * 1440 + 720, 100⟩, ⟨1 * 1440 + 720, 100⟩, ⟨3 * 1440 + 720, 100⟩,
   ⟨4 * 1440 + 720, 100⟩, ⟨5 * 1440 + 720, 100⟩, ⟨6 * 1440 + 720, 100⟩,
   ⟨7 * 1440 + 720, 100⟩]

/-- Scenario D current instant: 13:00 local on day 7. -/
def scenarioDNow : Int := 7 * 1440 + 780

/-- Scenario D backfill request: a full completion at noon of day 2. -/
def scenarioDReq : CheckinReq := ⟨2 * 1440 + 720, 100⟩

/-- Scenario D engine state before the backfill: the cached snapshot is the
full recompute over the pre-backfill history. -/
def scenarioDState : EngineState :=
  ⟨scenarioDLogs, computeStreaks 6 0 1 scenarioDLogs scenarioDNow, scenarioDNow⟩

-- Scenario A from the spec, as a sanity check of the embedding:
-- daily habit, target 1, check-ins at noon on days 0, 1, 2, now day 2 13:00.
example :
    computeStreaks 6 0 1
      [⟨0 * 1440 + 720, 100⟩, ⟨1 * 1440 + 720, 100⟩, ⟨2 * 1440 + 720, 100⟩]
      (2 * 1440 + 780) = ⟨3, 3⟩ := by decide

-- Scenario B: check-ins days 0, 1, none on day 2, check-in day 3, now day 3.
example :
    computeStreaks 6 0 1
      [⟨0 * 1440 + 720, 100⟩, ⟨1 * 1440 + 720, 100⟩, ⟨3 * 1440 + 720, 100⟩]
      (3 * 1440 + 780) = ⟨1, 2⟩ := by decide

/-! ## Helper lemmas -/

theorem submitCheckin_ok_spec (h : Habit) (gh : Nat) (tz : Int) (st : EngineState)
    (now : Int) (req : CheckinReq) (st' : EngineState)
    (hok : submitCheckin (some h) gh tz st now req = .ok st') :
    st'.snapshot = computeStreaks gh tz h.target_count st'.logs now ∧ st'.asOf = now := by
  unfold submitCheckin at hok
  dsimp only at hok
  split_ifs at hok with h1 h2 h3 h4
  all_goals injection hok with hok
  all_goals subst hok
  all_goals exact ⟨rfl, rfl⟩

theorem foldl_checkin_consistent (h : Habit) (gh : Nat) (tz : Int)
    (ops : List (Int × CheckinReq)) (st : EngineState)
    (hst : st.snapshot = computeStreaks gh tz h.target_count st.logs st.asOf) :
    (ops.foldl (stepCheckin (some h) gh tz) st).snapshot
      = computeStreaks gh tz h.target_count
          (ops.foldl (stepCheckin (some h) gh tz) st).logs
          (ops.foldl (stepCheckin (some h) gh tz) st).asOf := by
  induction ops generalizing st with
  | nil => simpa using hst
  | cons op ops ih =>
      simp only [List.foldl_cons]
      apply ih
      unfold stepCheckin
      cases hres : submitCheckin (some h) gh tz st op.1 op.2 with
      | error e => exact hst
      | ok st' =>
          obtain ⟨hsnap, hasof⟩ := submitCheckin_ok_spec h gh tz st op.1 op.2 st' hres
          rw [hsnap, hasof]

/-! ## Claims -/

/-- C1: for every habit and every sequence of check-in submissions, the
cached streak snapshot stored on the UserHabit equals the value obtained by
a full recompute over the complete HabitLog history of that habit (as of
the instant of the last successful write); the cache is never the source of
truth. -/
theorem cached_snapshot_eq_full_recompute (h : Habit) (gh : Nat) (tz : Int)
    (ops : List (Int × CheckinReq)) :
    (runCheckins (some h) gh tz ops).snapshot
      = computeStreaks gh tz h.target_count
          (runCheckins (some h) gh tz ops).logs
          (runCheckins (some h) gh tz ops).asOf :=
  foldl_checkin_consistent h gh tz ops initState rfl

/-- C2: the streak computation is a pure, deterministic function of its
four inputs (log history, target frequency count, timezone, now): any two
invocations with equal inputs produce equal outputs, streak numbers and
per-period satisfaction sequence alike. -/
theorem streak_engine_deterministic (gh₁ gh₂ : Nat) (tz₁ tz₂ : Int)
    (c₁ c₂ : Nat) (logs₁ logs₂ : List SLog) (now₁ now₂ : Int)
    (hgh : gh₁ = gh₂) (htz : tz₁ = tz₂) (hc : c₁ = c₂)
    (hl : logs₁ = logs₂) (hn : now₁ = now₂) :
    streakOutputs gh₁ tz₁ c₁ logs₁ now₁ = streakOutputs gh₂ tz₂ c₂ logs₂ now₂ := by
  subst hgh htz hc hl hn
  rfl

theorem streak_engine_deterministic_witness :
    streakOutputs 6 0 1 [⟨720, 100⟩] 780 = streakOutputs 6 0 1 [⟨720, 100⟩] 780 :=
  streak_engine_deterministic 6 6 0 0 1 1 [⟨720, 100⟩] [⟨720, 100⟩] 780 780
    rfl rfl rfl rfl rfl

/-- C6: for a daily habit with target count 1 and check-ins on day 1 and
day 2, no log on day 3, and a check-in on day 4 (now being day 4), the
streak computation returns current_streak = 1 and longest_streak = 2. -/
theorem scenarioB_streaks :
    computeStreaks 6 0 1
      [⟨1 * 1440 + 720, 100⟩, ⟨2 * 1440 + 720, 100⟩, ⟨4 * 1440 + 720, 100⟩]
      (4 * 1440 + 780) = ⟨1, 2⟩ := by decide

/-- C4: submit_checkin fails with ValidationError when the completion
percentage is outside [0,100] or occurred_at is beyond now plus the 5
minute clock-skew tolerance; it fails with NotFoundError when the habit
lookup finds nothing and with StateError when the habit is inactive; every
such failure is returned directly to the caller and leaves the state
unchanged, so no log is created. -/
theorem submitCheckin_rejects_invalid (h : Habit) (gh : Nat) (tz : Int)
    (st : EngineState) (now : Int) (req : CheckinReq) :
    (submitCheckin none gh tz st now req = .error .notFoundError) ∧
    (h.is_active = false →
      submitCheckin (some h) gh tz st now req = .error .stateError) ∧
    (h.is_active = true →
      (req.completion_percentage < 0 ∨ 100 < req.completion_percentage) →
      submitCheckin (some h) gh tz st now req = .error .validationError) ∧
    (h.is_active = true → now + clockSkewTolerance < req.occurred_at →
      submitCheckin (some h) gh tz st now req = .error .validationError) ∧
    (∀ (hab : Option Habit) (e : CheckinError),
      submitCheckin hab gh tz st now req = .error e →
      stepCheckin hab gh tz st (now, req) = st) := by
  refine ⟨rfl, ?_, ?_, ?_, ?_⟩
  · intro h2
    unfold submitCheckin
    dsimp only
    split_ifs <;> simp_all
  · intro ha hbad
    unfold submitCheckin
    dsimp only
    split_ifs <;> simp_all
  · intro ha hlate
    unfold submitCheckin
    dsimp only
    split_ifs <;> simp_all
  · intro hab e herr
    unfold stepCheckin
    rw [herr]

theorem submitCheckin_rejects_invalid_witness :
    (submitCheckin none 6 0 initState 780 ⟨720, 100⟩ = .error .notFoundError) ∧
    (submitCheckin (some ⟨1, false⟩) 6 0 initState 780 ⟨720, 100⟩
      = .error .stateError) ∧
    (submitCheckin (some ⟨1, true⟩) 6 0 initState 780 ⟨720, 101⟩
      = .error .validationError) ∧
    (submitCheckin (some ⟨1, true⟩) 6 0 initState 780 ⟨800, 100⟩
      = .error .validationError) ∧
    (stepCheckin none 6 0 initState (780, ⟨720, 100⟩) = initState) :=
  ⟨(submitCheckin_rejects_invalid ⟨1, false⟩ 6 0 initState 780 ⟨720, 100⟩).1,
   (submitCheckin_rejects_invalid ⟨1, false⟩ 6 0 initState 780 ⟨720, 100⟩).2.1 rfl,
   (submitCheckin_rejects_invalid ⟨1, true⟩ 6 0 initState 780 ⟨720, 101⟩).2.2.1 rfl
     (Or.inr (by decide)),
   (submitCheckin_rejects_invalid ⟨1, true⟩ 6 0 initState 780 ⟨800, 100⟩).2.2.2.1 rfl
     (by decide),
   (submitCheckin_rejects_invalid ⟨1, true⟩ 6 0 initState 780 ⟨720, 100⟩).2.2.2.2
     none .notFoundError
     (submitCheckin_rejects_invalid ⟨1, false⟩ 6 0 initState 780 ⟨720, 100⟩).1⟩

/-- C5: a successful check-in, in particular a backfill into a past,
already-resolved period, installs as snapshot exactly the from-scratch
recomputation over the complete log history; concretely, in scenario D a
backfilled check-in five days back fills the missed day 2 that had broken
the streak, raising longest_streak retroactively from 5 to 8 and making
current_streak reflect the now-unbroken run up to today. -/
theorem backfill_forces_full_recompute (h : Habit) (gh : Nat) (tz : Int)
    (st : EngineState) (now : Int) (req : CheckinReq) (st' : EngineState)
    (hok : submitCheckin (some h) gh tz st now req = .ok st') :
    st'.snapshot = computeStreaks gh tz h.target_count st'.logs now ∧
    computeStreaks 6 0 1 scenarioDLogs scenarioDNow = ⟨5, 5⟩ ∧
    periodOf 6 0 scenarioDReq.occurred_at < periodOf 6 0 scenarioDNow ∧
    stepCheckin (some ⟨1, true⟩) 6 0 scenarioDState (scenarioDNow, scenarioDReq)
      = ⟨scenarioDLogs ++ [⟨scenarioDReq.occurred_at, 100⟩], ⟨8, 8⟩, scenarioDNow⟩ :=
  ⟨(submitCheckin_ok_spec h gh tz st now req st' hok).1, by decide, by decide,
   by decide⟩

theorem backfill_forces_full_recompute_witness :
    (⟨scenarioDLogs ++ [⟨scenarioDReq.occurred_at, 100⟩], ⟨8, 8⟩,
        scenarioDNow⟩ : EngineState).snapshot
      = computeStreaks 6 0 1
          (⟨scenarioDLogs ++ [⟨scenarioDReq.occurred_at, 100⟩], ⟨8, 8⟩,
              scenarioDNow⟩ : EngineState).logs scenarioDNow ∧
    computeStreaks 6 0 1 scenarioDLogs scenarioDNow = ⟨5, 5⟩ ∧
    periodOf 6 0 scenarioDReq.occurred_at < periodOf 6 0 scenarioDNow ∧
    stepCheckin (some ⟨1, true⟩) 6 0 scenarioDState (scenarioDNow, scenarioDReq)
      = ⟨scenarioDLogs ++ [⟨scenarioDReq.occurred_at, 100⟩], ⟨8, 8⟩, scenarioDNow⟩ :=
  backfill_forces_full_recompute ⟨1, true⟩ 6 0 scenarioDState scenarioDNow
    scenarioDReq _ rfl

/-- C7: with the default 6 hour grace window, a check-in at 00:03 local
time is attributed to the previous local day; and the grace window enters
satisfaction evaluation only through period resolution: whether a period is
satisfied is a function of the multiset of periods the counting logs
resolve to. -/
theorem grace_window_resolution :
    (∀ tz d : Int, periodOf 6 tz (d * 1440 + 3 - tz) = d - 1) ∧
    (∀ (gh : Nat) (tz : Int) (count : Nat) (logs : List SLog) (p : Int),
      periodSatisfied gh tz count logs p
        = satisfiedFromPeriods count (resolvedPeriods gh tz logs) p) := by
  constructor
  · intro tz d
    unfold periodOf
    have hl : d * 1440 + 3 - tz + tz = d * 1440 + 3 := by ring
    dsimp only
    rw [hl]
    have h1 : (d * 1440 + 3) % 1440 = 3 := by omega
    have h2 : (d * 1440 + 3) / 1440 = d := by omega
    rw [h1, h2]
    norm_num
  · intro gh tz count logs p
    have hlen : ∀ ls : List SLog,
        (ls.filter (fun l => logCounts l && (periodOf gh tz l.occurred_at == p))).length
          = (((ls.filter logCounts).map
              (fun l => periodOf gh tz l.occurred_at)).filter
                (fun q => q == p)).length := by
      intro ls
      induction ls with
      | nil => rfl
      | cons x xs ih =>
          cases hc : logCounts x with
          | false => simp [List.filter_cons, hc, ih]
          | true =>
              cases hp : (periodOf gh tz x.occurred_at == p) with
              | false => simp [List.filter_cons, hc, hp, ih]
              | true => simp [List.filter_cons, hc, hp, ih]
    unfold periodSatisfied logsInPeriod satisfiedFromPeriods resolvedPeriods
    rw [hlen logs]

/-! ## Tracking-slice lemmas -/

theorem checkInFulfilled_eq (logs : List FLog) (l : FLog) :
    checkInFulfilled logs l = addTodayLog logs l := by
  induction logs with
  | nil => rfl
  | cons y ys ih =>
      by_cases hy : y.user_habit_id == l.user_habit_id <;>
        simp [checkInFulfilled, addTodayLog, hy, ih]

theorem addTodayLog_length_of_mem (logs : List FLog) (l : FLog)
    (hmem : ∃ x ∈ logs, x.user_habit_id = l.user_habit_id) :
    (addTodayLog logs l).length = logs.length := by
  induction logs with
  | nil =>
      obtain ⟨x, hx, _⟩ := hmem
      cases hx
  | cons y ys ih =>
      by_cases hy : y.user_habit_id == l.user_habit_id
      · simp [addTodayLog, hy]
      · simp only [addTodayLog, hy, if_neg, Bool.false_eq_true, not_false_iff,
          ite_false, List.length_cons]
        obtain ⟨x, hx, hkey⟩ := hmem
        rcases List.mem_cons.mp hx with rfl | hx'
        · exact absurd (by simp [hkey]) hy
        · rw [ih ⟨x, hx', hkey⟩]

theorem addTodayLog_idem (logs : List FLog) (l : FLog) :
    addTodayLog (addTodayLog logs l) l = addTodayLog logs l := by
  induction logs with
  | nil => simp [addTodayLog]
  | cons y ys ih =>
      by_cases hy : y.user_habit_id == l.user_habit_id <;>
        simp [addTodayLog, hy, ih]

theorem upsertByPeriod_idem (gh : Nat) (tz : Int) (p : Int) (nl : SLog)
    (hnl : periodOf gh tz nl.occurred_at = p) (logs : List SLog) :
    upsertByPeriod gh tz p nl (upsertByPeriod gh tz p nl logs)
      = upsertByPeriod gh tz p nl logs := by
  induction logs with
  | nil => simp [upsertByPeriod, hnl]
  | cons x xs ih =>
      by_cases hx : periodOf gh tz x.occurred_at == p
      · simp [upsertByPeriod, hx, hnl]
      · simp [upsertByPeriod, hx, ih]

theorem submitCheckin_ok_idem (h : Habit) (gh : Nat) (tz : Int)
    (st : EngineState) (now : Int) (req : CheckinReq) (st' : EngineState)
    (hcount : h.target_count = 1)
    (hok : submitCheckin (some h) gh tz st now req = .ok st') :
    submitCheckin (some h) gh tz st' now req = .ok st' := by
  unfold submitCheckin at hok ⊢
  dsimp only at hok ⊢
  rw [hcount] at hok ⊢
  simp only [if_pos rfl] at hok ⊢
  split_ifs at hok with h1 h2 h3
  injection hok with hok
  subst hok
  rw [if_neg h1, if_neg h2, if_neg h3]
  simp only [if_true]
  rw [upsertByPeriod_idem gh tz (periodOf gh tz req.occurred_at)
    ⟨req.occurred_at, req.completion_percentage⟩ rfl]

theorem mem_habitKeys_addTodayLog (l : FLog) :
    ∀ (logs : List FLog) (a : String),
      a ∈ habitKeys (addTodayLog logs l) →
      a = l.user_habit_id ∨ a ∈ habitKeys logs := by
  intro logs
  induction logs with
  | nil =>
      intro a ha
      simp [addTodayLog, habitKeys] at ha
      exact Or.inl ha
  | cons y ys ih =>
      intro a ha
      by_cases hy : y.user_habit_id == l.user_habit_id
      · simp only [addTodayLog, hy, ite_true, habitKeys, List.map_cons,
          List.mem_cons] at ha ⊢
        tauto
      · simp only [addTodayLog, hy, Bool.false_eq_true, not_false_iff,
          ite_false, habitKeys, List.map_cons, List.mem_cons] at ha ⊢
        rcases ha with h | h
        · tauto
        · rcases ih a h with h' | h' <;> tauto

theorem nodup_habitKeys_addTodayLog (l : FLog) :
    ∀ logs : List FLog,
      (habitKeys logs).Nodup → (habitKeys (addTodayLog logs l)).Nodup := by
  intro logs
  induction logs with
  | nil =>
      intro _
      simp [addTodayLog, habitKeys]
  | cons y ys ih =>
      intro hnd
      simp only [habitKeys, List.map_cons, List.nodup_cons] at hnd
      by_cases hy : y.user_habit_id == l.user_habit_id
      · have hkey : y.user_habit_id = l.user_habit_id := by simpa using hy
        simp only [addTodayLog, hy, ite_true, habitKeys, List.map_cons,
          List.nodup_cons]
        exact ⟨by rw [← hkey]; exact hnd.1, hnd.2⟩
      · have hkey : y.user_habit_id ≠ l.user_habit_id := by simpa using hy
        simp only [addTodayLog, hy, Bool.false_eq_true, not_false_iff,
          ite_false, habitKeys, List.map_cons, List.nodup_cons]
        refine ⟨?_, ih hnd.2⟩
        intro hmem
        rcases mem_habitKeys_addTodayLog l ys y.user_habit_id hmem with h | h
        · exact hkey h
        · exact hnd.1 h

/-- C3: submitting a second check-in for the same habit updates the
existing entry instead of creating a new one: in the tracking slice the
replace-or-append keyed by user_habit_id leaves the number of todayLogs
unchanged when an entry for the habit exists, and repeating an identical
insert changes nothing; on the ingestion side, for a habit whose target
frequency allows one log per period (count = 1), resubmitting an identical
check-in reproduces the exact same state (same logs, hence same
total_completions, same snapshot). -/
theorem checkin_upsert_idempotent :
    (∀ (logs : List FLog) (l : FLog),
      (∃ x ∈ logs, x.user_habit_id = l.user_habit_id) →
      (addTodayLog logs l).length = logs.length) ∧
    (∀ (logs : List FLog) (l : FLog),
      addTodayLog (addTodayLog logs l) l = addTodayLog logs l) ∧
    (∀ (h : Habit) (gh : Nat) (tz : Int) (st : EngineState) (now : Int)
        (req : CheckinReq) (st' : EngineState),
      h.target_count = 1 →
      submitCheckin (some h) gh tz st now req = .ok st' →
      submitCheckin (some h) gh tz st' now req = .ok st') :=
  ⟨addTodayLog_length_of_mem,
   addTodayLog_idem,
   fun h gh tz st now req st' hcount hok =>
     submitCheckin_ok_idem h gh tz st now req st' hcount hok⟩

theorem checkin_upsert_idempotent_witness :
    (addTodayLog [⟨"log1", "uh1", .completed, 100⟩]
        ⟨"log2", "uh1", .completed, 100⟩).length
      = [(⟨"log1", "uh1", .completed, 100⟩ : FLog)].length ∧
    addTodayLog (addTodayLog [] ⟨"log1", "uh1", .completed, 100⟩)
        ⟨"log1", "uh1", .completed, 100⟩
      = addTodayLog [] ⟨"log1", "uh1", .completed, 100⟩ ∧
    submitCheckin (some ⟨1, true⟩) 6 0 ⟨[⟨720, 100⟩], ⟨1, 1⟩, 780⟩ 780 ⟨720, 100⟩
      = .ok ⟨[⟨720, 100⟩], ⟨1, 1⟩, 780⟩ :=
  ⟨checkin_upsert_idempotent.1 _ _
     ⟨⟨"log1", "uh1", .completed, 100⟩, List.mem_singleton.mpr rfl, rfl⟩,
   checkin_upsert_idempotent.2.1 _ _,
   checkin_upsert_idempotent.2.2 ⟨1, true⟩ 6 0 initState 780 ⟨720, 100⟩ _ rfl rfl⟩

/-- C10: in the tracking store, todayLogs holds at most one log per
user_habit_id after any sequence of addTodayLog and checkInHabit.fulfilled
actions from the initial empty list: both reducers replace the existing
entry with the same user_habit_id when one is present and append
otherwise, so the user_habit_id keys stay pairwise distinct. -/
theorem todayLogs_unique_per_habit (acts : List TrackInsert) :
    (habitKeys (runInserts acts)).Nodup := by
  suffices hgen : ∀ (acts : List TrackInsert) (logs : List FLog),
      (habitKeys logs).Nodup →
      (habitKeys (acts.foldl applyInsert logs)).Nodup by
    exact hgen acts [] (by simp [habitKeys])
  intro acts
  induction acts with
  | nil =>
      intro logs h
      simpa using h
  | cons a as ih =>
      intro logs h
      simp only [List.foldl_cons]
      apply ih
      cases a with
      | add l => exact nodup_habitKeys_addTodayLog l logs h
      | fulfilled l =>
          show (habitKeys (checkInFulfilled logs l)).Nodup
          rw [checkInFulfilled_eq]
          exact nodup_habitKeys_addTodayLog l logs h

/-! ## Achievement Evaluator lemmas -/

theorem unlockOnce_nodup (u : List String) (aid : String) (h : u.Nodup) :
    (unlockOnce u aid).Nodup := by
  unfold unlockOnce
  split_ifs with hm
  · exact h
  · simp [List.nodup_append, h, hm]

theorem unlockOnce_subset (u : List String) (aid : String) :
    u ⊆ unlockOnce u aid := by
  unfold unlockOnce
  split_ifs with hm
  · exact fun a ha => ha
  · exact fun a ha => List.mem_append_left _ ha

theorem mem_unlockOnce_self (u : List String) (aid : String) :
    aid ∈ unlockOnce u aid := by
  unfold unlockOnce
  split_ifs with hm
  · exact hm
  · exact List.mem_append_right _ (List.mem_singleton.mpr rfl)

theorem evaluateAchievements_nodup (criteria : List Achievement)
    (snap : StreakResult) :
    ∀ u : List String, u.Nodup → (evaluateAchievements criteria snap u).Nodup := by
  induction criteria with
  | nil => exact fun u h => h
  | cons c cs ih =>
      intro u h
      show (evaluateAchievements cs snap
        (if c.streakThreshold ≤ snap.current_streak then unlockOnce u c.id
         else u)).Nodup
      apply ih
      split_ifs with hc
      · exact unlockOnce_nodup u c.id h
      · exact h

theorem evaluateAchievements_subset (criteria : List Achievement)
    (snap : StreakResult) :
    ∀ u : List String, u ⊆ evaluateAchievements criteria snap u := by
  induction criteria with
  | nil => exact fun u a ha => ha
  | cons c cs ih =>
      intro u a ha
      show a ∈ evaluateAchievements cs snap
        (if c.streakThreshold ≤ snap.current_streak then unlockOnce u c.id
         else u)
      refine ih _ ?_
      split_ifs with hc
      · exact unlockOnce_subset u c.id ha
      · exact ha

theorem mem_evaluateAchievements (snap : StreakResult) :
    ∀ (criteria : List Achievement) (u : List String) (a : Achievement),
      a ∈ criteria → a.streakThreshold ≤ snap.current_streak →
      a.id ∈ evaluateAchievements criteria snap u := by
  intro criteria
  induction criteria with
  | nil =>
      intro u a ha _
      cases ha
  | cons c cs ih =>
      intro u a ha hth
      show a.id ∈ evaluateAchievements cs snap
        (if c.streakThreshold ≤ snap.current_streak then unlockOnce u c.id
         else u)
      rcases List.mem_cons.mp ha with rfl | ha'
      · refine evaluateAchievements_subset cs snap _ ?_
        rw [if_pos hth]
        exact mem_unlockOnce_self u a.id
      · exact ih _ a ha' hth

theorem evaluateAchievements_no_op (snap : StreakResult) :
    ∀ (criteria : List Achievement) (u : List String),
      (∀ a ∈ criteria, a.streakThreshold ≤ snap.current_streak → a.id ∈ u) →
      evaluateAchievements criteria snap u = u := by
  intro criteria
  induction criteria with
  | nil => exact fun u _ => rfl
  | cons c cs ih =>
      intro u hall
      show evaluateAchievements cs snap
        (if c.streakThreshold ≤ snap.current_streak then unlockOnce u c.id
         else u) = u
      split_ifs with hc
      · have hm : c.id ∈ u := hall c (List.mem_cons_self c cs) hc
        rw [show unlockOnce u c.id = u from by unfold unlockOnce; rw [if_pos hm]]
        exact ih u (fun a ha hth => hall a (List.mem_cons_of_mem c ha) hth)
      · exact ih u (fun a ha hth => hall a (List.mem_cons_of_mem c ha) hth)

/-- C9: achievement unlocks are unique and monotonic: starting from a
duplicate-free unlock set, evaluation keeps the set duplicate-free (the
uniqueness constraint on (user, achievement) admits at most one unlock
record per pair), never removes an existing unlock record, and running the
same evaluation again changes nothing, so duplicate or concurrent
re-evaluation never double-unlocks. -/
theorem achievement_unlocks_unique_monotonic (criteria : List Achievement)
    (snap : StreakResult) (unlocked : List String) (hnd : unlocked.Nodup) :
    (evaluateAchievements criteria snap unlocked).Nodup ∧
    unlocked ⊆ evaluateAchievements criteria snap unlocked ∧
    evaluateAchievements criteria snap
        (evaluateAchievements criteria snap unlocked)
      = evaluateAchievements criteria snap unlocked :=
  ⟨evaluateAchievements_nodup criteria snap unlocked hnd,
   evaluateAchievements_subset criteria snap unlocked,
   evaluateAchievements_no_op snap criteria _
     (fun a ha hth => mem_evaluateAchievements snap criteria unlocked a ha hth)⟩

theorem achievement_unlocks_unique_monotonic_witness :
    (evaluateAchievements [⟨"streak-7", 7⟩] ⟨7, 7⟩ []).Nodup ∧
    [] ⊆ evaluateAchievements [⟨"streak-7", 7⟩] ⟨7, 7⟩ [] ∧
    evaluateAchievements [⟨"streak-7", 7⟩] ⟨7, 7⟩
        (evaluateAchievements [⟨"streak-7", 7⟩] ⟨7, 7⟩ [])
      = evaluateAchievements [⟨"streak-7", 7⟩] ⟨7, 7⟩ [] :=
  achievement_unlocks_unique_monotonic [⟨"streak-7", 7⟩] ⟨7, 7⟩ []
    List.nodup_nil

/-! ## Risk score lemmas -/

theorem clamp01_nonneg (q : ℚ) : 0 ≤ clamp01 q := le_max_left 0 _

theorem clamp01_le_one (q : ℚ) : clamp01 q ≤ 1 :=
  max_le (by norm_num) (min_le_left 1 q)

theorem clamp01_mono {q r : ℚ} (h : q ≤ r) : clamp01 q ≤ clamp01 r :=
  max_le_max le_rfl (min_le_min le_rfl h)

theorem graceElapsedFrac_nonneg (gh : Nat) (tz now : Int) :
    0 ≤ graceElapsedFrac gh tz now := clamp01_nonneg _

theorem graceElapsedFrac_le_one (gh : Nat) (tz now : Int) :
    graceElapsedFrac gh tz now ≤ 1 := clamp01_le_one _

theorem trendDeficit_nonneg (gh : Nat) (tz : Int) (count : Nat)
    (logs : List SLog) (p : Int) : 0 ≤ trendDeficit gh tz count logs p := by
  unfold trendDeficit
  split
  · exact le_rfl
  · dsimp only
    split_ifs
    · exact le_rfl
    · exact clamp01_nonneg _

theorem trendDeficit_le_one (gh : Nat) (tz : Int) (count : Nat)
    (logs : List SLog) (p : Int) : trendDeficit gh tz count logs p ≤ 1 := by
  unfold trendDeficit
  split
  · norm_num
  · dsimp only
    split_ifs
    · norm_num
    · exact clamp01_le_one _

theorem graceElapsedFrac_mono (gh : Nat) (tz : Int) {t1 t2 : Int}
    (h12 : t1 ≤ t2) (hp : periodOf gh tz t1 = periodOf gh tz t2) :
    graceElapsedFrac gh tz t1 ≤ graceElapsedFrac gh tz t2 := by
  unfold graceElapsedFrac
  dsimp only
  rw [hp]
  apply clamp01_mono
  have hD : (0 : ℚ) < ((1440 + gh * 60 : Nat) : ℚ) := by
    exact_mod_cast (by omega : 0 < 1440 + gh * 60)
  apply div_le_div_of_nonneg_right ?_ hD.le
  exact_mod_cast (by omega : t1 + tz - periodOf gh tz t2 * 1440
    ≤ t2 + tz - periodOf gh tz t2 * 1440)

theorem riskScore_mem_unit (gh : Nat) (tz : Int) (count : Nat)
    (logs : List SLog) (now : Int) :
    0 ≤ riskScore gh tz count logs now ∧ riskScore gh tz count logs now ≤ 1 := by
  unfold riskScore
  dsimp only
  split_ifs with hs
  · norm_num
  · have ha1 := graceElapsedFrac_nonneg gh tz now
    have ha2 := graceElapsedFrac_le_one gh tz now
    have hb1 := trendDeficit_nonneg gh tz count logs (periodOf gh tz now)
    have hb2 := trendDeficit_le_one gh tz count logs (periodOf gh tz now)
    constructor
    · apply div_nonneg _ (by norm_num : (0:ℚ) ≤ 3)
      linarith
    · rw [div_le_one (by norm_num : (0:ℚ) < 3)]
      linarith

theorem riskScore_mono (gh : Nat) (tz : Int) (count : Nat) (logs : List SLog)
    {t1 t2 : Int} (h12 : t1 ≤ t2)
    (hp : periodOf gh tz t1 = periodOf gh tz t2) :
    riskScore gh tz count logs t1 ≤ riskScore gh tz count logs t2 := by
  unfold riskScore
  dsimp only
  rw [hp]
  split_ifs with hs
  · exact le_rfl
  · have ha := graceElapsedFrac_mono gh tz h12 hp
    apply div_le_div_of_nonneg_right ?_ (by norm_num : (0:ℚ) ≤ 3)
    linarith

/-- C8: the streak-risk score always lies in [0,1], and for a fixed habit
and fixed log set it is monotonically non-decreasing in elapsed time while
the current period's window elapses without a new check-in: for t1 ≤ t2
resolving to the same current period, riskScore at t1 is at most riskScore
at t2. -/
theorem riskScore_bounded_monotone (gh : Nat) (tz : Int) (count : Nat)
    (logs : List SLog) (t1 t2 : Int) (h12 : t1 ≤ t2)
    (hp : periodOf gh tz t1 = periodOf gh tz t2) :
    (0 ≤ riskScore gh tz count logs t1 ∧ riskScore gh tz count logs t1 ≤ 1) ∧
    riskScore gh tz count logs t1 ≤ riskScore gh tz count logs t2 :=
  ⟨riskScore_mem_unit gh tz count logs t1,
   riskScore_mono gh tz count logs h12 hp⟩

theorem riskScore_bounded_monotone_witness :
    (0 ≤ riskScore 6 0 1 [] 720 ∧ riskScore 6 0 1 [] 720 ≤ 1) ∧
    riskScore 6 0 1 [] 720 ≤ riskScore 6 0 1 [] 800 :=
  riskScore_bounded_monotone 6 0 1 [] 720 800 (by decide) (by decide)

end Wellness
